import Mathlib

/-!
Verification of the LoRELEI replay engine (`js/replay-core.js`).

The JavaScript `ReplayEngine` class is shallowly embedded here:
JS numbers become `ℚ`, optional JSON fields become `Option`,
JS objects used as keyed maps become functions into `Option`,
and the engine's mutable fields become an explicit state record.
JS truthiness tests on optional numeric fields (`if (s.exited_start)`)
are embedded by `truthyQ`: the value `0` is falsy in JavaScript, so a
field holding `0` behaves like a missing field.
-/

namespace Replay

/-- JS truthiness of an optional numeric field: `undefined`/`null` and `0`
are falsy, every other number is truthy. -/
def truthyQ : Option ℚ → Bool
  | none => false
  | some v => decide (v ≠ 0)

/-! ### Position history samples and interpolation (`_interpolatePosition`) -/

/-- One entry of `positionHistory[runnerId]`: `{t, lat, lon}`. -/
structure HistSample where
  t : ℚ
  lat : ℚ
  lon : ℚ
deriving DecidableEq, Repr

/-- Array indexing `history[i]` (in-range accesses only are ever used). -/
def sampleAt (l : List HistSample) (i : ℕ) : HistSample :=
  l.getD i ⟨0, 0, 0⟩

/-- The binary-search loop of `_interpolatePosition`:
`while (lo < hi - 1) { mid = floor((lo+hi)/2); if (history[mid].t <= time) lo = mid; else hi = mid; }`.
The loop is embedded with an explicit fuel argument; fuel `hi - lo`
always suffices because the gap shrinks by at least one per iteration. -/
def bsearchGo (l : List HistSample) (time : ℚ) : ℕ → ℕ → ℕ → ℕ × ℕ
  | 0, lo, hi => (lo, hi)
  | fuel + 1, lo, hi =>
    if lo < hi - 1 then
      let mid := (lo + hi) / 2
      if (sampleAt l mid).t ≤ time then bsearchGo l time fuel mid hi
      else bsearchGo l time fuel lo mid
    else (lo, hi)

/-- `_interpolatePosition(history, time)`: `null` before the first sample
(or with no samples), the last sample's coordinates at or after the last
sample, and otherwise linear interpolation between the binary-searched
bracketing pair, with a degenerate-interval guard. -/
def interpolatePosition (l : List HistSample) (time : ℚ) : Option (ℚ × ℚ) :=
  match l with
  | [] => none
  | first :: _ =>
    if time < first.t then none
    else
      let last := sampleAt l (l.length - 1)
      if last.t ≤ time then some (last.lat, last.lon)
      else
        let lohi := bsearchGo l time (l.length - 1) 0 (l.length - 1)
        let p1 := sampleAt l lohi.1
        let p2 := sampleAt l lohi.2
        let dt := p2.t - p1.t
        if dt = 0 then some (p1.lat, p1.lon)
        else
          let f := (time - p1.t) / dt
          some (p1.lat + (p2.lat - p1.lat) * f, p1.lon + (p2.lon - p1.lon) * f)

/-- Loop invariant of the binary search: starting from a window
`lo < hi` with `history[lo].t ≤ time < history[hi].t` and enough fuel,
the loop returns an adjacent pair inside the window that still brackets
`time`. -/
theorem bsearchGo_bracket (l : List HistSample) (time : ℚ) :
    ∀ fuel lo hi, lo < hi → hi - lo ≤ fuel →
      (sampleAt l lo).t ≤ time → time < (sampleAt l hi).t →
      lo ≤ (bsearchGo l time fuel lo hi).1 ∧
      (bsearchGo l time fuel lo hi).2 = (bsearchGo l time fuel lo hi).1 + 1 ∧
      (bsearchGo l time fuel lo hi).2 ≤ hi ∧
      (sampleAt l (bsearchGo l time fuel lo hi).1).t ≤ time ∧
      time < (sampleAt l (bsearchGo l time fuel lo hi).2).t := by
  intro fuel
  induction fuel with
  | zero => intro lo hi hlt hfuel _ _; omega
  | succ n ih =>
    intro lo hi hlt hfuel hlo hhi
    by_cases hcond : lo < hi - 1
    · have hmidlo : lo < (lo + hi) / 2 := by omega
      have hmidhi : (lo + hi) / 2 < hi := by omega
      by_cases hmid : (sampleAt l ((lo + hi) / 2)).t ≤ time
      · have := ih ((lo + hi) / 2) hi hmidhi (by omega) hmid hhi
        simp only [bsearchGo, if_pos hcond, if_pos hmid]
        exact ⟨le_trans (le_of_lt hmidlo) this.1, this.2.1, this.2.2.1, this.2.2.2.1,
          this.2.2.2.2⟩
      · have hmid' : time < (sampleAt l ((lo + hi) / 2)).t := lt_of_not_le hmid
        have := ih lo ((lo + hi) / 2) hmidlo (by omega) hlo hmid'
        simp only [bsearchGo, if_pos hcond, if_neg hmid]
        exact ⟨this.1, this.2.1, le_trans this.2.2.1 (le_of_lt hmidhi), this.2.2.2.1,
          this.2.2.2.2⟩
    · have hadj : hi = lo + 1 := by omega
      simp only [bsearchGo, if_neg hcond]
      exact ⟨le_refl lo, hadj, le_refl hi, hlo, hhi⟩

theorem sampleAt_cons_zero (a : HistSample) (rest : List HistSample) :
    sampleAt (a :: rest) 0 = a := rfl

theorem sampleAt_eq_getElem (l : List HistSample) (i : ℕ) (h : i < l.length) :
    sampleAt l i = l[i] := List.getD_eq_getElem l _ h

/-- In a time-sorted history, sample timestamps are monotone in the index. -/
theorem sampleAt_t_mono (l : List HistSample)
    (hs : l.Sorted (fun a b => a.t ≤ b.t)) {i j : ℕ} (hij : i ≤ j)
    (hj : j < l.length) : (sampleAt l i).t ≤ (sampleAt l j).t := by
  rcases eq_or_lt_of_le hij with rfl | hlt
  · exact le_refl _
  · have hi : i < l.length := lt_trans hlt hj
    rw [sampleAt_eq_getElem l i hi, sampleAt_eq_getElem l j hj]
    have := hs.rel_get_of_lt (a := ⟨i, hi⟩) (b := ⟨j, hj⟩) hlt
    simpa using this

/-- C2: `_interpolatePosition` returns `null` when the history is empty or
the query time precedes the first sample; the last sample's coordinates
when the query time is at or after the last sample; and otherwise linearly
interpolates between an adjacent bracketing pair `p1 = history[i]`,
`p2 = history[i+1]` with `p1.t ≤ time < p2.t` (so `p1.t < p2.t` and the
degenerate-interval guard `p1.t == p2.t` is never reached). -/
theorem interpolatePosition_spec (l : List HistSample) (time : ℚ)
    (hs : l.Sorted (fun a b => a.t ≤ b.t)) :
    (l = [] → interpolatePosition l time = none) ∧
    (l ≠ [] → time < (sampleAt l 0).t → interpolatePosition l time = none) ∧
    (l ≠ [] → (sampleAt l (l.length - 1)).t ≤ time →
      interpolatePosition l time =
        some ((sampleAt l (l.length - 1)).lat, (sampleAt l (l.length - 1)).lon)) ∧
    (l ≠ [] → (sampleAt l 0).t ≤ time → time < (sampleAt l (l.length - 1)).t →
      ∃ i, i + 1 < l.length ∧
        (sampleAt l i).t ≤ time ∧ time < (sampleAt l (i + 1)).t ∧
        (sampleAt l i).t < (sampleAt l (i + 1)).t ∧
        interpolatePosition l time =
          some ((sampleAt l i).lat + ((sampleAt l (i + 1)).lat - (sampleAt l i).lat) *
                  ((time - (sampleAt l i).t) / ((sampleAt l (i + 1)).t - (sampleAt l i).t)),
                (sampleAt l i).lon + ((sampleAt l (i + 1)).lon - (sampleAt l i).lon) *
                  ((time - (sampleAt l i).t) / ((sampleAt l (i + 1)).t - (sampleAt l i).t)))) := by
  refine ⟨fun he => by subst he; rfl, ?_, ?_, ?_⟩
  · intro hne hfirst
    obtain ⟨first, rest, rfl⟩ := List.exists_cons_of_ne_nil hne
    rw [sampleAt_cons_zero] at hfirst
    simp only [interpolatePosition, if_pos hfirst]
  · intro hne hlast
    obtain ⟨first, rest, rfl⟩ := List.exists_cons_of_ne_nil hne
    have hfl : (sampleAt (first :: rest) 0).t ≤ (sampleAt (first :: rest) ((first :: rest).length - 1)).t :=
      sampleAt_t_mono _ hs (Nat.zero_le _) (by simp)
    have hfirst : ¬ time < (sampleAt (first :: rest) 0).t :=
      not_lt.mpr (le_trans hfl hlast)
    rw [sampleAt_cons_zero] at hfirst
    simp only [interpolatePosition, if_neg hfirst, if_pos hlast]
  · intro hne hfirst hlast
    obtain ⟨first, rest, rfl⟩ := List.exists_cons_of_ne_nil hne
    set l := first :: rest with hl
    have hfirst' : ¬ time < first.t := by
      rw [sampleAt_cons_zero] at hfirst; exact not_lt.mpr hfirst
    have hlast' : ¬ (sampleAt l (l.length - 1)).t ≤ time := not_le.mpr hlast
    have hlen2 : 0 < l.length - 1 := by
      by_contra h
      have h1 : l.length = 1 := by
        have : 0 < l.length := by simp [hl]
        omega
      have : (sampleAt l (l.length - 1)).t = (sampleAt l 0).t := by rw [h1]
      rw [this] at hlast
      exact absurd hfirst (not_le.mpr hlast)
    obtain ⟨hb1, hb2, hb3, hb4, hb5⟩ :=
      bsearchGo_bracket l time (l.length - 1) 0 (l.length - 1) hlen2 (le_refl _) hfirst hlast
    refine ⟨(bsearchGo l time (l.length - 1) 0 (l.length - 1)).1, ?_, hb4, ?_, ?_, ?_⟩
    · have hlen0 : 0 < l.length := by simp [hl]
      omega
    · rw [← hb2]; exact hb5
    · rw [← hb2]; exact lt_of_le_of_lt hb4 hb5
    · have hdt : (sampleAt l (bsearchGo l time (l.length - 1) 0 (l.length - 1)).2).t -
          (sampleAt l (bsearchGo l time (l.length - 1) 0 (l.length - 1)).1).t ≠ 0 := by
        have := lt_of_le_of_lt hb4 hb5
        exact sub_ne_zero_of_ne (ne_of_gt this)
      simp only [interpolatePosition, if_neg hfirst', if_neg hlast', if_neg hdt]
      rw [hb2]

/-- Witness for C2: on the two-sample history `[(t=0,0,0), (t=10,10,10)]`
at query time `5`, the hypotheses of `interpolatePosition_spec` hold and
the interpolation clause applies. -/
theorem interpolatePosition_spec_witness :
    ([⟨0, 0, 0⟩, ⟨10, 10, 10⟩] : List HistSample).Sorted (fun a b => a.t ≤ b.t) ∧
    (∃ i, i + 1 < 2 ∧
      (sampleAt [⟨0, 0, 0⟩, ⟨10, 10, 10⟩] i).t ≤ 5 ∧
      (5 : ℚ) < (sampleAt [⟨0, 0, 0⟩, ⟨10, 10, 10⟩] (i + 1)).t ∧
      (sampleAt [⟨0, 0, 0⟩, ⟨10, 10, 10⟩] i).t <
        (sampleAt [⟨0, 0, 0⟩, ⟨10, 10, 10⟩] (i + 1)).t ∧
      interpolatePosition [⟨0, 0, 0⟩, ⟨10, 10, 10⟩] 5 =
        some ((sampleAt [⟨0, 0, 0⟩, ⟨10, 10, 10⟩] i).lat +
                ((sampleAt [⟨0, 0, 0⟩, ⟨10, 10, 10⟩] (i + 1)).lat -
                  (sampleAt [⟨0, 0, 0⟩, ⟨10, 10, 10⟩] i).lat) *
                  ((5 - (sampleAt [⟨0, 0, 0⟩, ⟨10, 10, 10⟩] i).t) /
                    ((sampleAt [⟨0, 0, 0⟩, ⟨10, 10, 10⟩] (i + 1)).t -
                      (sampleAt [⟨0, 0, 0⟩, ⟨10, 10, 10⟩] i).t)),
              (sampleAt [⟨0, 0, 0⟩, ⟨10, 10, 10⟩] i).lon +
                ((sampleAt [⟨0, 0, 0⟩, ⟨10, 10, 10⟩] (i + 1)).lon -
                  (sampleAt [⟨0, 0, 0⟩, ⟨10, 10, 10⟩] i).lon) *
                  ((5 - (sampleAt [⟨0, 0, 0⟩, ⟨10, 10, 10⟩] i).t) /
                    ((sampleAt [⟨0, 0, 0⟩, ⟨10, 10, 10⟩] (i + 1)).t -
                      (sampleAt [⟨0, 0, 0⟩, ⟨10, 10, 10⟩] i).t)))) := by
  have hs : ([⟨0, 0, 0⟩, ⟨10, 10, 10⟩] : List HistSample).Sorted (fun a b => a.t ≤ b.t) := by
    simp [List.sorted_cons]
  refine ⟨hs, ?_⟩
  have h := (interpolatePosition_spec [⟨0, 0, 0⟩, ⟨10, 10, 10⟩] 5 hs).2.2.2
    (by simp) (by norm_num [sampleAt]) (by norm_num [sampleAt])
  simpa using h

/-! ### Scoring records and the score computation (`getScores`) -/

/-- One stage window of `stage_timestamps`: `{enter?, exit?}`. -/
structure StageTimes where
  enter : Option ℚ
  exit : Option ℚ
deriving DecidableEq, Repr

/-- A pre-calculated scoring record, one per runner.
`stage_timestamps` is a JS object `stageNumber -> {enter, exit}`,
embedded as an association list in `Object.entries` order. -/
structure ScoringRecord where
  runner_id : ℤ
  exited_start : Option ℚ
  enter_finish : Option ℚ
  total_run_time : Option ℚ
  total_stages : Option ℕ
  stage_timestamps : List (ℕ × StageTimes)
deriving DecidableEq, Repr

/-- The body of the stage loop of `getScores` (one iteration):
`if (times.enter && times.exit) { if (currentTime >= times.exit) {stagesCompleted++; dwell += exit-enter}
 else if (currentTime >= times.enter) {dwell += currentTime - enter} }`. -/
def stageStep (c : ℚ) (acc : ℕ × ℚ) (w : ℕ × StageTimes) : ℕ × ℚ :=
  if truthyQ w.2.enter && truthyQ w.2.exit then
    if w.2.exit.getD 0 ≤ c then (acc.1 + 1, acc.2 + (w.2.exit.getD 0 - w.2.enter.getD 0))
    else if w.2.enter.getD 0 ≤ c then (acc.1, acc.2 + (c - w.2.enter.getD 0))
    else acc
  else acc

/-- `(stagesCompleted, stageDwellTime)` accumulated over the stage windows. -/
def stageTotals (c : ℚ) (l : List (ℕ × StageTimes)) : ℕ × ℚ :=
  l.foldl (stageStep c) (0, 0)

/-- The score object returned for one runner by `getScores`.
`hasStarted`/`hasFinished` hold the truthiness of the JS expressions
`scoringData.exited_start && currentTime >= scoringData.exited_start` etc. -/
structure Score where
  stages : ℕ
  totalStages : ℕ
  hasStarted : Bool
  hasFinished : Bool
  elapsedTime : Option ℚ
deriving DecidableEq, Repr

/-- The per-runner body of `getScores`: scoring data may be missing
(`MissingScoring` degrades to a zeroed snapshot). -/
def computeScore (fallbackStages : ℕ) (c : ℚ) (sd? : Option ScoringRecord) : Score :=
  match sd? with
  | none =>
    { stages := 0, totalStages := fallbackStages, hasStarted := false,
      hasFinished := false, elapsedTime := none }
  | some sd =>
    let hasStarted := truthyQ sd.exited_start && decide (sd.exited_start.getD 0 ≤ c)
    let hasFinished := truthyQ sd.enter_finish && decide (sd.enter_finish.getD 0 ≤ c)
    let totals := stageTotals c sd.stage_timestamps
    let elapsedTime : Option ℚ :=
      if hasStarted then
        if hasFinished then sd.total_run_time
        else some ((c - sd.exited_start.getD 0) - totals.2)
      else none
    { stages := totals.1,
      totalStages :=
        match sd.total_stages with
        | some n => if n = 0 then fallbackStages else n
        | none => fallbackStages,
      hasStarted := hasStarted, hasFinished := hasFinished, elapsedTime := elapsedTime }

/-! ### Event timeline (`_generateEventsFromScoring` and the load-time sort) -/

inductive EvKind where
  | exit_start
  | enter_stage
  | exit_stage
  | enter_finish
deriving DecidableEq, Repr

/-- `{t, r, label, type, stage?}` as pushed by `_generateEventsFromScoring`. -/
structure TimelineEvent where
  t : ℚ
  r : ℤ
  label : String
  kind : EvKind
  stage : Option ℕ
deriving DecidableEq, Repr

/-- Events pushed for one stage window: an enter-stage event if `enter`
is truthy, then an exit-stage event if `exit` is truthy, each
independently. -/
def stageWindowEvents (rid : ℤ) (w : ℕ × StageTimes) : List TimelineEvent :=
  (if truthyQ w.2.enter then
    [{ t := w.2.enter.getD 0, r := rid, label := "Stage " ++ toString w.1,
       kind := .enter_stage, stage := some w.1 }]
   else []) ++
  (if truthyQ w.2.exit then
    [{ t := w.2.exit.getD 0, r := rid, label := "Exit S" ++ toString w.1,
       kind := .exit_stage, stage := some w.1 }]
   else [])

/-- Events pushed for a single scoring record, in source order:
exit-start, then per-window enter/exit stage events, then enter-finish.
Each `if (s.field)` is a JS truthiness test. -/
def eventsOfRecord (s : ScoringRecord) : List TimelineEvent :=
  (if truthyQ s.exited_start then
    [{ t := s.exited_start.getD 0, r := s.runner_id, label := "Start!",
       kind := .exit_start, stage := none }]
   else []) ++
  s.stage_timestamps.flatMap (stageWindowEvents s.runner_id) ++
  (if truthyQ s.enter_finish then
    [{ t := s.enter_finish.getD 0, r := s.runner_id, label := "Finish!",
       kind := .enter_finish, stage := none }]
   else [])

/-- `_generateEventsFromScoring(scoring)`: the concatenation of each
record's events in load order. -/
def generateEventsFromScoring (scoring : List ScoringRecord) : List TimelineEvent :=
  scoring.flatMap eventsOfRecord

/-- The sort key of `events.sort((a, b) => a.t - b.t)`. -/
def evLE (a b : TimelineEvent) : Prop := a.t ≤ b.t

instance : DecidableRel evLE := fun a b => inferInstanceAs (Decidable (a.t ≤ b.t))

instance : IsTotal TimelineEvent evLE := ⟨fun a b => le_total a.t b.t⟩

instance : IsTrans TimelineEvent evLE := ⟨fun _ _ _ => le_trans⟩

/-- `events.sort((a, b) => a.t - b.t)`. `Array.prototype.sort` is a stable
sort, and every stable sort by the same key produces the same list, so it
is embedded as a stable insertion sort. -/
def sortEventsByTime (l : List TimelineEvent) : List TimelineEvent :=
  List.insertionSort evLE l

/-- The scoring record of the spec's dwell-subtraction example, literally:
`exitedStart = 0`, one stage `{enter: 10, exit: 20}`, `enterFinish = 30`. -/
def dwellExampleZero : ScoringRecord where
  runner_id := 1
  exited_start := some 0
  enter_finish := some 30
  total_run_time := some 20
  total_stages := some 1
  stage_timestamps := [(1, ⟨some 10, some 20⟩)]

/-- The dwell-subtraction example moved off the truthiness edge:
`exitedStart = 1`, one stage `{enter: 10, exit: 20}`, `enterFinish = 30`,
`totalRunTime = 19`. -/
def dwellExampleOne : ScoringRecord where
  runner_id := 1
  exited_start := some 1
  enter_finish := some 30
  total_run_time := some 19
  total_stages := some 1
  stage_timestamps := [(1, ⟨some 10, some 20⟩)]

/-- C3 counterexample: in the spec's own example record with
`exitedStart = 0`, the claim predicts `hasStarted = true` and
`elapsedTime = 15` at `currentTime = 25`, but `getScores` tests JS
truthiness of `exited_start`, and `0` is falsy, so the runner is
reported as not started and `elapsedTime` is absent. -/
theorem computeScore_elapsed_cex :
    dwellExampleZero.exited_start = some 0 ∧
    (computeScore 1 25 (some dwellExampleZero)).hasStarted = false ∧
    (computeScore 1 25 (some dwellExampleZero)).elapsedTime = none ∧
    (computeScore 1 35 (some dwellExampleZero)).elapsedTime = none := by
  refine ⟨rfl, ?_, ?_, ?_⟩ <;>
    norm_num [computeScore, stageTotals, stageStep, truthyQ, dwellExampleZero]

/-- C3 (amended): `elapsedTime` is absent when not started; equals the
precomputed `total_run_time` field (independent of `currentTime`) when
started and finished; and equals
`(currentTime - exitedStartTime) - stageDwellTime` when started but not
finished. ("Started"/"finished" are the truthiness-guarded tests of C4,
under which `exitedStartTime = 0` counts as not started.) -/
theorem computeScore_elapsed (fb : ℕ) (c : ℚ) (sd : ScoringRecord) :
    ((computeScore fb c (some sd)).hasStarted = false →
      (computeScore fb c (some sd)).elapsedTime = none) ∧
    ((computeScore fb c (some sd)).hasStarted = true →
      (computeScore fb c (some sd)).hasFinished = true →
      (computeScore fb c (some sd)).elapsedTime = sd.total_run_time) ∧
    ((computeScore fb c (some sd)).hasStarted = true →
      (computeScore fb c (some sd)).hasFinished = false →
      (computeScore fb c (some sd)).elapsedTime =
        some ((c - sd.exited_start.getD 0) - (stageTotals c sd.stage_timestamps).2)) := by
  refine ⟨fun h0 => ?_, fun h1 h2 => ?_, fun h1 h2 => ?_⟩ <;>
    simp_all [computeScore]

/-- Witness for C3: the corrected example record at `currentTime = 25`
is started, unfinished, and its elapsed time is
`(25 - 1) - (20 - 10) = 14`; at `currentTime = 35` it is finished and
reports the precomputed `total_run_time`. -/
theorem computeScore_elapsed_witness :
    (computeScore 1 25 (some dwellExampleOne)).hasStarted = true ∧
    (computeScore 1 25 (some dwellExampleOne)).hasFinished = false ∧
    (computeScore 1 25 (some dwellExampleOne)).elapsedTime = some 14 ∧
    (computeScore 1 35 (some dwellExampleOne)).elapsedTime = some 19 := by
  have h1 : (computeScore 1 25 (some dwellExampleOne)).hasStarted = true := by
    norm_num [computeScore, truthyQ, dwellExampleOne]
  have h2 : (computeScore 1 25 (some dwellExampleOne)).hasFinished = false := by
    norm_num [computeScore, truthyQ, dwellExampleOne]
  have h3 := (computeScore_elapsed 1 25 dwellExampleOne).2.2 h1 h2
  have h4 := (computeScore_elapsed 1 35 dwellExampleOne).2.1
    (by norm_num [computeScore, truthyQ, dwellExampleOne])
    (by norm_num [computeScore, truthyQ, dwellExampleOne])
  refine ⟨h1, h2, ?_, ?_⟩
  · rw [h3]; norm_num [stageTotals, stageStep, truthyQ, dwellExampleOne]
  · rw [h4]; rfl

/-- C4 counterexample: a record whose `exited_start` field is present
with value `0`. The claim predicts `hasStarted = true` at
`currentTime = 5` (present and `5 ≥ 0`), but the JS truthiness test
treats `0` as missing, so `hasStarted` is false. -/
theorem computeScore_started_iff_cex :
    dwellExampleZero.exited_start.isSome = true ∧
    dwellExampleZero.exited_start.getD 0 ≤ (5 : ℚ) ∧
    (computeScore 1 5 (some dwellExampleZero)).hasStarted = false := by
  refine ⟨rfl, by norm_num [dwellExampleZero], ?_⟩
  norm_num [computeScore, truthyQ, dwellExampleZero]

/-- C4 (amended): `hasStarted` iff `exited_start` is present with a
nonzero (JS-truthy) value `v` and `currentTime ≥ v`; `hasFinished` iff
`enter_finish` is present with a nonzero value `v` and `currentTime ≥ v`. -/
theorem computeScore_started_iff (fb : ℕ) (c : ℚ) (sd : ScoringRecord) :
    ((computeScore fb c (some sd)).hasStarted = true ↔
      ∃ v, sd.exited_start = some v ∧ v ≠ 0 ∧ v ≤ c) ∧
    ((computeScore fb c (some sd)).hasFinished = true ↔
      ∃ v, sd.enter_finish = some v ∧ v ≠ 0 ∧ v ≤ c) := by
  constructor
  · cases h : sd.exited_start with
    | none => simp [computeScore, truthyQ, h]
    | some v => simp [computeScore, truthyQ, h, and_assoc]
  · cases h : sd.enter_finish with
    | none => simp [computeScore, truthyQ, h]
    | some v => simp [computeScore, truthyQ, h, and_assoc]

/-- C5 counterexample: a stage window with `enter = 10` present,
`exit` absent, at `currentTime = 15`. The claim predicts
`currentTime - enterTime = 5` accrued into `stageDwellTime`, but the
stage loop requires BOTH `times.enter && times.exit` to be truthy, so
the window contributes nothing. -/
theorem stageTotals_cex :
    (⟨some 10, none⟩ : StageTimes).enter = some 10 ∧
    (10 : ℚ) ≤ 15 ∧
    (⟨some 10, none⟩ : StageTimes).exit = none ∧
    stageTotals 15 [(1, ⟨some 10, none⟩)] = (0, 0) ∧
    (0 : ℚ) ≠ 15 - 10 := by
  refine ⟨rfl, by norm_num, rfl, ?_, by norm_num⟩
  norm_num [stageTotals, stageStep, truthyQ]

/-- C5 (amended): the contribution of each stage window to
`(stagesCompleted, stageDwellTime)`: when both `enter` and `exit` are
present (truthy) and `currentTime ≥ exit`, the stage counts as completed
and `exit - enter` is added to the dwell; when both are present and
`enter ≤ currentTime < exit`, `currentTime - enter` is added; when both
are present but `currentTime < enter`, nothing is added; and when either
timestamp is missing (or `0`, which is JS-falsy), the window contributes
nothing at all. -/
theorem stageTotals_contribution (c : ℚ) (l : List (ℕ × StageTimes)) (n : ℕ) (w : StageTimes) :
    ((truthyQ w.enter && truthyQ w.exit) = true → w.exit.getD 0 ≤ c →
      stageTotals c (l ++ [(n, w)]) =
        ((stageTotals c l).1 + 1, (stageTotals c l).2 + (w.exit.getD 0 - w.enter.getD 0))) ∧
    ((truthyQ w.enter && truthyQ w.exit) = true → ¬ w.exit.getD 0 ≤ c → w.enter.getD 0 ≤ c →
      stageTotals c (l ++ [(n, w)]) =
        ((stageTotals c l).1, (stageTotals c l).2 + (c - w.enter.getD 0))) ∧
    ((truthyQ w.enter && truthyQ w.exit) = true → ¬ w.exit.getD 0 ≤ c → ¬ w.enter.getD 0 ≤ c →
      stageTotals c (l ++ [(n, w)]) = stageTotals c l) ∧
    ((truthyQ w.enter && truthyQ w.exit) = false →
      stageTotals c (l ++ [(n, w)]) = stageTotals c l) := by
  refine ⟨fun hb hx => ?_, fun hb hx he => ?_, fun hb hx he => ?_, fun hb => ?_⟩
  · simp [stageTotals, List.foldl_append, stageStep, hb, hx]
  · simp [stageTotals, List.foldl_append, stageStep, hb, hx, he]
  · simp [stageTotals, List.foldl_append, stageStep, hb, hx, he]
  · simp [stageTotals, List.foldl_append, stageStep, hb]

/-- Witness for C5: a record with one completed window `{enter 10, exit 20}`
appended after no windows, at `currentTime = 25`: the completed-stage
clause applies and yields one stage and dwell `20 - 10`. -/
theorem stageTotals_contribution_witness :
    (truthyQ (some (10 : ℚ)) && truthyQ (some (20 : ℚ))) = true ∧
    ((⟨some 10, some 20⟩ : StageTimes).exit.getD 0 ≤ (25 : ℚ)) ∧
    stageTotals 25 ([] ++ [(1, (⟨some 10, some 20⟩ : StageTimes))]) =
      ((stageTotals 25 []).1 + 1,
        (stageTotals 25 []).2 +
          ((⟨some 10, some 20⟩ : StageTimes).exit.getD 0 -
            (⟨some 10, some 20⟩ : StageTimes).enter.getD 0)) := by
  have h1 : (truthyQ (some (10 : ℚ)) && truthyQ (some (20 : ℚ))) = true := by
    norm_num [truthyQ]
  have h2 : ((⟨some 10, some 20⟩ : StageTimes) : StageTimes).exit.getD 0 ≤ (25 : ℚ) := by
    norm_num
  exact ⟨h1, h2, (stageTotals_contribution 25 [] 1 ⟨some 10, some 20⟩).1 h1 h2⟩

/-! ### C6: event emission and the stable load-time sort -/

/-- A scoring record whose `exited_start` is present with value `0`. -/
def zeroStartRecord : ScoringRecord where
  runner_id := 1
  exited_start := some 0
  enter_finish := none
  total_run_time := none
  total_stages := none
  stage_timestamps := []

/-- C6 counterexample: the claim predicts one `ExitStart` event whenever
`exitedStartTime` is present, but `_generateEventsFromScoring` tests JS
truthiness (`if (s.exited_start)`), so a present value `0` emits no
event at all. -/
theorem generateEvents_cex :
    zeroStartRecord.exited_start.isSome = true ∧
    generateEventsFromScoring [zeroStartRecord] = [] := by
  refine ⟨rfl, ?_⟩
  norm_num [generateEventsFromScoring, eventsOfRecord, truthyQ, zeroStartRecord]

theorem countP_flatMap_list {α β : Type} (l : List α) (f : α → List β) (p : β → Bool) :
    (l.flatMap f).countP p = (l.map fun a => (f a).countP p).sum := by
  induction l with
  | nil => rfl
  | cons a l ih => simp [List.flatMap_cons, List.countP_append, ih]

theorem countP_stageWindowEvents_enter (rid : ℤ) (n : ℕ) (w : ℕ × StageTimes) :
    (stageWindowEvents rid w).countP
        (fun e => decide (e.kind = EvKind.enter_stage) && decide (e.stage = some n)) =
      if decide (w.1 = n) && truthyQ w.2.enter then 1 else 0 := by
  unfold stageWindowEvents
  by_cases he : truthyQ w.2.enter <;> by_cases hx : truthyQ w.2.exit <;>
    by_cases hn : w.1 = n <;>
    simp [he, hx, hn, List.countP_append, List.countP_cons]

theorem countP_stageWindowEvents_exit (rid : ℤ) (n : ℕ) (w : ℕ × StageTimes) :
    (stageWindowEvents rid w).countP
        (fun e => decide (e.kind = EvKind.exit_stage) && decide (e.stage = some n)) =
      if decide (w.1 = n) && truthyQ w.2.exit then 1 else 0 := by
  unfold stageWindowEvents
  by_cases he : truthyQ w.2.enter <;> by_cases hx : truthyQ w.2.exit <;>
    by_cases hn : w.1 = n <;>
    simp [he, hx, hn, List.countP_append, List.countP_cons]

theorem countP_stageWindowEvents_other (rid : ℤ) (w : ℕ × StageTimes) (k : EvKind)
    (h1 : k ≠ EvKind.enter_stage) (h2 : k ≠ EvKind.exit_stage) :
    (stageWindowEvents rid w).countP (fun e => decide (e.kind = k)) = 0 := by
  unfold stageWindowEvents
  by_cases he : truthyQ w.2.enter <;> by_cases hx : truthyQ w.2.exit <;>
    simp [he, hx, List.countP_append, List.countP_cons, Ne.symm h1, Ne.symm h2]

/-- Inserting an element that the filter rejects does not change the
filtered list. -/
theorem filter_orderedInsert_of_neg (p : TimelineEvent → Bool) (a : TimelineEvent)
    (l : List TimelineEvent) (h : p a = false) :
    (List.orderedInsert evLE a l).filter p = l.filter p := by
  induction l with
  | nil => simp [List.orderedInsert, h]
  | cons b l ih =>
    by_cases hab : evLE a b
    · simp [List.orderedInsert, hab, h]
    · simp only [List.orderedInsert, if_neg hab, List.filter_cons]
      cases hpb : p b <;> simp [hpb, ih]

/-- Inserting an element with the filtered timestamp puts it in front of
every kept element: all elements passed over by `orderedInsert` have a
strictly smaller timestamp. -/
theorem filter_orderedInsert_of_eq (τ : ℚ) (a : TimelineEvent)
    (l : List TimelineEvent) (h : a.t = τ) :
    (List.orderedInsert evLE a l).filter (fun e => decide (e.t = τ)) =
      a :: l.filter (fun e => decide (e.t = τ)) := by
  induction l with
  | nil => simp [List.orderedInsert, h]
  | cons b l ih =>
    by_cases hab : evLE a b
    · simp [List.orderedInsert, hab, h]
    · have hbt : ¬ b.t = τ := by
        have hlt : b.t < a.t := lt_of_not_le hab
        rw [h] at hlt
        exact ne_of_lt hlt
      simp only [List.orderedInsert, if_neg hab, List.filter_cons]
      simp [hbt, ih]

/-- Stability of the load-time sort: for every timestamp, the events
carrying that timestamp appear in the sorted sequence in exactly their
emission (load) order. -/
theorem filter_sortEventsByTime (τ : ℚ) (l : List TimelineEvent) :
    (sortEventsByTime l).filter (fun e => decide (e.t = τ)) =
      l.filter (fun e => decide (e.t = τ)) := by
  induction l with
  | nil => rfl
  | cons a l ih =>
    show (List.orderedInsert evLE a (List.insertionSort evLE l)).filter _ = _
    by_cases ha : a.t = τ
    · rw [filter_orderedInsert_of_eq τ a _ ha]
      rw [show (List.insertionSort evLE l).filter (fun e => decide (e.t = τ)) =
        l.filter (fun e => decide (e.t = τ)) from ih]
      simp [List.filter_cons, ha]
    · have ha' : (fun e : TimelineEvent => decide (e.t = τ)) a = false := by simp [ha]
      rw [filter_orderedInsert_of_neg _ a _ ha']
      rw [show (List.insertionSort evLE l).filter (fun e => decide (e.t = τ)) =
        l.filter (fun e => decide (e.t = τ)) from ih]
      simp [List.filter_cons, ha]

/-- C6 (amended): the load-time event timeline is a permutation of the
per-record emissions, sorted ascending by time, with exact-time ties kept
in emission order (stable sort); and per scoring record, one `ExitStart`
event is emitted iff `exited_start` is truthy (present and nonzero), one
`EnterFinish` iff `enter_finish` is truthy, and per stage window one
enter-stage/exit-stage event iff the respective timestamp is truthy, each
independently. -/
theorem buildEvents_spec (scoring : List ScoringRecord) :
    List.Sorted evLE (sortEventsByTime (generateEventsFromScoring scoring)) ∧
    (∀ τ : ℚ,
      (sortEventsByTime (generateEventsFromScoring scoring)).filter
          (fun e => decide (e.t = τ)) =
        (generateEventsFromScoring scoring).filter (fun e => decide (e.t = τ))) ∧
    (sortEventsByTime (generateEventsFromScoring scoring)).Perm
      (generateEventsFromScoring scoring) ∧
    (∀ s : ScoringRecord,
      (eventsOfRecord s).countP (fun e => decide (e.kind = EvKind.exit_start)) =
        (if truthyQ s.exited_start then 1 else 0) ∧
      (eventsOfRecord s).countP (fun e => decide (e.kind = EvKind.enter_finish)) =
        (if truthyQ s.enter_finish then 1 else 0) ∧
      (∀ n : ℕ,
        (eventsOfRecord s).countP
            (fun e => decide (e.kind = EvKind.enter_stage) && decide (e.stage = some n)) =
          s.stage_timestamps.countP (fun w => decide (w.1 = n) && truthyQ w.2.enter)) ∧
      (∀ n : ℕ,
        (eventsOfRecord s).countP
            (fun e => decide (e.kind = EvKind.exit_stage) && decide (e.stage = some n)) =
          s.stage_timestamps.countP (fun w => decide (w.1 = n) && truthyQ w.2.exit))) := by
  refine ⟨List.sorted_insertionSort evLE _, fun τ => filter_sortEventsByTime τ _,
    List.perm_insertionSort evLE _, fun s => ⟨?_, ?_, fun n => ?_, fun n => ?_⟩⟩
  · unfold eventsOfRecord
    rw [List.countP_append, List.countP_append]
    rw [countP_flatMap_list]
    have hz : (s.stage_timestamps.map fun w =>
        (stageWindowEvents s.runner_id w).countP
          (fun e => decide (e.kind = EvKind.exit_start))).sum = 0 := by
      rw [List.sum_eq_zero]
      intro x hx
      obtain ⟨w, _, rfl⟩ := List.mem_map.mp hx
      exact countP_stageWindowEvents_other s.runner_id w _ (by simp) (by simp)
    by_cases h1 : truthyQ s.exited_start <;> by_cases h2 : truthyQ s.enter_finish <;>
      simp [h1, h2, hz, List.countP_cons]
  · unfold eventsOfRecord
    rw [List.countP_append, List.countP_append]
    rw [countP_flatMap_list]
    have hz : (s.stage_timestamps.map fun w =>
        (stageWindowEvents s.runner_id w).countP
          (fun e => decide (e.kind = EvKind.enter_finish))).sum = 0 := by
      rw [List.sum_eq_zero]
      intro x hx
      obtain ⟨w, _, rfl⟩ := List.mem_map.mp hx
      exact countP_stageWindowEvents_other s.runner_id w _ (by simp) (by simp)
    by_cases h1 : truthyQ s.exited_start <;> by_cases h2 : truthyQ s.enter_finish <;>
      simp [h1, h2, hz, List.countP_cons]
  · unfold eventsOfRecord
    rw [List.countP_append, List.countP_append]
    have hflat : ∀ l : List (ℕ × StageTimes),
        ((l.flatMap (stageWindowEvents s.runner_id)).countP
          (fun e => decide (e.kind = EvKind.enter_stage) && decide (e.stage = some n))) =
          l.countP (fun w => decide (w.1 = n) && truthyQ w.2.enter) := by
      intro l
      induction l with
      | nil => rfl
      | cons w l ih =>
        simp only [List.flatMap_cons, List.countP_append, List.countP_cons, ih,
          countP_stageWindowEvents_enter]
        by_cases h : (decide (w.1 = n) && truthyQ w.2.enter) = true
        · simp [h]; omega
        · simp [h]
    by_cases h1 : truthyQ s.exited_start <;> by_cases h2 : truthyQ s.enter_finish <;>
      simp [h1, h2, hflat, List.countP_cons]
  · unfold eventsOfRecord
    rw [List.countP_append, List.countP_append]
    have hflat : ∀ l : List (ℕ × StageTimes),
        ((l.flatMap (stageWindowEvents s.runner_id)).countP
          (fun e => decide (e.kind = EvKind.exit_stage) && decide (e.stage = some n))) =
          l.countP (fun w => decide (w.1 = n) && truthyQ w.2.exit) := by
      intro l
      induction l with
      | nil => rfl
      | cons w l ih =>
        simp only [List.flatMap_cons, List.countP_append, List.countP_cons, ih,
          countP_stageWindowEvents_exit]
        by_cases h : (decide (w.1 = n) && truthyQ w.2.exit) = true
        · simp [h]; omega
        · simp [h]
    by_cases h1 : truthyQ s.exited_start <;> by_cases h2 : truthyQ s.enter_finish <;>
      simp [h1, h2, hflat, List.countP_cons]

/-! ### The playback clock / cursor engine

The engine's mutable fields become an explicit state record. The cursor
indices `currentIndex` / `currentEventIndex` are represented by the
still-unprocessed suffixes `posRem` / `evRem` of the loaded sequences;
the numeric index is recovered as `length - suffix length`
(`posIndex` / `eventIndex` below). -/

/-- One `{r, lat, lon}` entry of a position frame. -/
structure PosSample where
  r : ℤ
  lat : ℚ
  lon : ℚ
deriving DecidableEq, Repr

/-- One `{t, p: [...]}` frame of `positions.json`. -/
structure Frame where
  t : ℚ
  p : List PosSample
deriving DecidableEq, Repr

/-- One `{id, name, color}` entry of `runners.json`. -/
structure RunnerInfo where
  id : ℤ
  name : String
  color : String
deriving DecidableEq, Repr

/-- `runnerPositions[r] = {...pos, timestamp: frame.t}`. -/
structure PosEntry where
  r : ℤ
  lat : ℚ
  lon : ℚ
  timestamp : ℚ
deriving DecidableEq, Repr

/-- The JS object `this.runnerPositions` keyed by runner id. -/
def PosMap := ℤ → Option PosEntry

/-- Per-runner `scoringState` entry. -/
structure RunnerScoringState where
  hasStarted : Bool
  hasFinished : Bool
  stagesEntered : Finset ℕ
  stagesExited : Finset ℕ
deriving DecidableEq

/-- The JS object `this.scoringState` keyed by runner id. -/
def ScoringStateMap := ℤ → Option RunnerScoringState

/-- The static data fixed by `loadData`: positions, runners, scoring,
`metadata.startTime` / `metadata.endTime`, and the resolved total stage
count (`metadata.totalStages || stage-geofence count`). -/
structure RaceData where
  positions : List Frame
  runners : List RunnerInfo
  scoring : List ScoringRecord
  startTime : ℚ
  endTime : ℚ
  totalStages : ℕ

/-- `this.events`: generated from scoring and sorted by time at load. -/
def eventsOf (d : RaceData) : List TimelineEvent :=
  sortEventsByTime (generateEventsFromScoring d.scoring)

/-- The engine's dynamic state. -/
@[ext]
structure EngState where
  posRem : List Frame
  evRem : List TimelineEvent
  runnerPositions : PosMap
  scoringState : ScoringStateMap
  currentTime : ℚ
  isPlaying : Bool
  playbackSpeed : ℚ

/-- `_resetScoringState()`: a fresh tracker for every loaded runner. -/
def resetScoringState (runners : List RunnerInfo) : ScoringStateMap :=
  fun rid =>
    if rid ∈ runners.map RunnerInfo.id then some ⟨false, false, ∅, ∅⟩ else none

/-- The state right after `loadData` completes. -/
def initState (d : RaceData) : EngState where
  posRem := d.positions
  evRem := eventsOf d
  runnerPositions := fun _ => none
  scoringState := resetScoringState d.runners
  currentTime := d.startTime
  isPlaying := false
  playbackSpeed := 1

/-- Applying one crossed frame: every sample of the frame overwrites the
latest known position of its runner. -/
def applyFrame (m : PosMap) (f : Frame) : PosMap :=
  f.p.foldl
    (fun m pos => fun k => if k = pos.r then some ⟨pos.r, pos.lat, pos.lon, f.t⟩ else m k) m

/-- `while (i < positions.length && positions[i].t <= T) { apply; i++ }`,
returning the updated map and the unprocessed suffix. -/
def runFrames : List Frame → ℚ → PosMap → PosMap × List Frame
  | [], _, m => (m, [])
  | f :: rest, T, m =>
    if f.t ≤ T then runFrames rest T (applyFrame m f) else (m, f :: rest)

/-- `_processEvent(event)`: update the runner's tracker (no-op for an
unknown runner). -/
def processEvent (st : ScoringStateMap) (e : TimelineEvent) : ScoringStateMap :=
  match st e.r with
  | none => st
  | some rs =>
    let rs' :=
      match e.kind with
      | .exit_start => { rs with hasStarted := true }
      | .enter_finish => { rs with hasFinished := true }
      | .enter_stage => { rs with stagesEntered := insert (e.stage.getD 0) rs.stagesEntered }
      | .exit_stage => { rs with stagesExited := insert (e.stage.getD 0) rs.stagesExited }
    fun k => if k = e.r then some rs' else st k

/-- The event crossing loop. -/
def runEvents : List TimelineEvent → ℚ → ScoringStateMap → ScoringStateMap × List TimelineEvent
  | [], _, st => (st, [])
  | e :: rest, T, st =>
    if e.t ≤ T then runEvents rest T (processEvent st e) else (st, e :: rest)

/-- `_updateToCurrentTime()`: advance both cursors to `currentTime`. -/
def updateToCurrentTime (s : EngState) : EngState :=
  { s with
    runnerPositions := (runFrames s.posRem s.currentTime s.runnerPositions).1
    posRem := (runFrames s.posRem s.currentTime s.runnerPositions).2
    scoringState := (runEvents s.evRem s.currentTime s.scoringState).1
    evRem := (runEvents s.evRem s.currentTime s.scoringState).2 }

/-- `_rebuildStateAtTime(T)`: reset positions, cursors and scoring state,
then re-run both crossing loops from index 0. -/
def rebuildStateAtTime (d : RaceData) (T : ℚ) (s : EngState) : EngState :=
  { s with
    runnerPositions := (runFrames d.positions T (fun _ => none)).1
    posRem := (runFrames d.positions T (fun _ => none)).2
    scoringState := (runEvents (eventsOf d) T (resetScoringState d.runners)).1
    evRem := (runEvents (eventsOf d) T (resetScoringState d.runners)).2 }

/-- `seekToTime(timestamp)`: clamp into `[startTime, endTime]`, then full
rebuild. -/
def seekToTime (d : RaceData) (ts : ℚ) (s : EngState) : EngState :=
  rebuildStateAtTime d (max d.startTime (min d.endTime ts))
    { s with currentTime := max d.startTime (min d.endTime ts) }

/-- `seekToPercent(percent)`. -/
def seekToPercent (d : RaceData) (p : ℚ) (s : EngState) : EngState :=
  seekToTime d (d.startTime + (d.endTime - d.startTime) * p) s

/-- `getProgress()`: guarded against a zero duration. -/
def getProgress (d : RaceData) (s : EngState) : ℚ :=
  if d.endTime - d.startTime = 0 then 0
  else (s.currentTime - d.startTime) / (d.endTime - d.startTime)

/-- `_tick()` driven by a wall-clock delta of `deltaMs` milliseconds:
returns the new state, the `onTimeChange(time, progress, stillPlaying)`
calls fired, and whether another animation frame was scheduled. -/
def tickResult (d : RaceData) (deltaMs : ℚ) (s : EngState) :
    EngState × List (ℚ × ℚ × Bool) × Bool :=
  if s.isPlaying then
    let T := s.currentTime + deltaMs / 1000 * s.playbackSpeed
    if d.endTime ≤ T then
      let s' := updateToCurrentTime { s with currentTime := d.endTime, isPlaying := false }
      (s', [(s'.currentTime, getProgress d s', false)], false)
    else
      let s' := updateToCurrentTime { s with currentTime := T }
      (s', [(s'.currentTime, getProgress d s', true)], true)
  else (s, [], false)

/-- The state component of a tick. -/
def tick (d : RaceData) (deltaMs : ℚ) (s : EngState) : EngState :=
  (tickResult d deltaMs s).1

/-- `play()`: no-op when already playing, otherwise start playing and run
the immediately scheduled first tick (whose wall delta is `δ`). -/
def play (d : RaceData) (δ : ℚ) (s : EngState) : EngState :=
  if s.isPlaying then s else tick d δ { s with isPlaying := true }

/-- `pause()`. -/
def pause (s : EngState) : EngState :=
  { s with isPlaying := false }

/-- `toggle()`. -/
def toggle (d : RaceData) (δ : ℚ) (s : EngState) : EngState :=
  if s.isPlaying then pause s else play d δ s

/-- `setSpeed(speed)`. -/
def setSpeed (v : ℚ) (s : EngState) : EngState :=
  { s with playbackSpeed := v }

/-- `this.currentIndex` recovered from the unprocessed suffix. -/
def posIndex (d : RaceData) (s : EngState) : ℕ :=
  d.positions.length - s.posRem.length

/-- `this.currentEventIndex` recovered from the unprocessed suffix. -/
def eventIndex (d : RaceData) (s : EngState) : ℕ :=
  (eventsOf d).length - s.evRem.length

/-- The state compared by C1: positions map, both cursors, scoring state. -/
def snapshot (d : RaceData) (s : EngState) :
    PosMap × ℕ × ℕ × ScoringStateMap :=
  (s.runnerPositions, posIndex d s, eventIndex d s, s.scoringState)

/-- A sequence of ticks with the given wall-clock deltas. -/
def ticksFrom (d : RaceData) (ds : List ℚ) (s : EngState) : EngState :=
  ds.foldl (fun s δ => tick d δ s) s

/-- `scoringMap[runner.id]` built by overwriting inserts in load order. -/
def scoringMapLookup (scoring : List ScoringRecord) (rid : ℤ) : Option ScoringRecord :=
  scoring.foldl (fun acc s => if s.runner_id = rid then some s else acc) none

/-- `getScores()`. -/
def getScores (d : RaceData) (s : EngState) : List Score :=
  d.runners.map fun r =>
    computeScore d.totalStages s.currentTime (scoringMapLookup d.scoring r.id)

/-- The public control surface, for stating the C9 invariant over
arbitrary operation sequences. Wall-clock deltas consumed by the ticks
inside `play`/`toggle`/`tick` are explicit arguments. -/
inductive EngOp where
  | play (δ : ℚ)
  | pause
  | toggle (δ : ℚ)
  | setSpeed (v : ℚ)
  | seekToTime (ts : ℚ)
  | seekToPercent (p : ℚ)
  | tick (δ : ℚ)

def runOp (d : RaceData) (s : EngState) : EngOp → EngState
  | .play δ => play d δ s
  | .pause => pause s
  | .toggle δ => toggle d δ s
  | .setSpeed v => setSpeed v s
  | .seekToTime ts => seekToTime d ts s
  | .seekToPercent p => seekToPercent d p s
  | .tick δ => tick d δ s

def runOps (d : RaceData) (ops : List EngOp) (s : EngState) : EngState :=
  ops.foldl (runOp d) s

/-- Nonnegative wall-clock deltas (the host clock is monotone) and
nonnegative speed multipliers. -/
def opOK : EngOp → Prop
  | .play δ => 0 ≤ δ
  | .toggle δ => 0 ≤ δ
  | .tick δ => 0 ≤ δ
  | .setSpeed v => 0 ≤ v
  | _ => True

/-- A minimal loaded race used for concrete witnesses. -/
def demoData : RaceData where
  positions := []
  runners := []
  scoring := []
  startTime := 0
  endTime := 100
  totalStages := 0

/-! ### C10: progress is total and guarded against zero duration -/

/-- C10: `getProgress` returns `0` for a zero-length race window and
`(currentTime - startTime) / (endTime - startTime)` otherwise; the
division is reached only when the duration is nonzero. -/
theorem getProgress_spec (d : RaceData) (s : EngState) :
    (d.endTime = d.startTime → getProgress d s = 0) ∧
    (d.endTime ≠ d.startTime →
      getProgress d s = (s.currentTime - d.startTime) / (d.endTime - d.startTime)) := by
  constructor
  · intro h
    simp [getProgress, h]
  · intro h
    have hne : d.endTime - d.startTime ≠ 0 := sub_ne_zero_of_ne h
    simp [getProgress, hne]

/-- Witness for C10 at a race of duration 100. -/
theorem getProgress_spec_witness :
    demoData.endTime ≠ demoData.startTime ∧
    getProgress demoData (initState demoData) =
      ((initState demoData).currentTime - demoData.startTime) /
        (demoData.endTime - demoData.startTime) := by
  have h : demoData.endTime ≠ demoData.startTime := by norm_num [demoData]
  exact ⟨h, (getProgress_spec demoData (initState demoData)).2 h⟩

/-! ### C8: out-of-range seeks clamp and never error -/

theorem rebuild_currentTime (d : RaceData) (T : ℚ) (s : EngState) :
    (rebuildStateAtTime d T s).currentTime = s.currentTime := rfl

/-- The clamped seek target of `seekToPercent p` with `p > 1` coincides
with that of `seekToPercent 1`, for every sign of the duration. -/
theorem clamp_percent_high (a b p : ℚ) (hp : 1 < p) :
    max a (min b (a + (b - a) * p)) = max a (min b (a + (b - a) * 1)) := by
  rcases lt_trichotomy (b - a) 0 with h | h | h
  · have hba : b < a := by linarith
    rw [max_eq_left (le_trans (min_le_left _ _) (le_of_lt hba)),
      max_eq_left (le_trans (min_le_left _ _) (le_of_lt hba))]
  · have he : (b - a) * p = (b - a) * 1 := by rw [h]; ring
    rw [he]
  · have hab : a ≤ b := by linarith
    have e1 : a + (b - a) * 1 = b := by ring
    have hx : b ≤ a + (b - a) * p := by nlinarith
    rw [e1, min_self, min_eq_left hx, max_eq_right hab]

/-- The clamped seek target of `seekToPercent p` with `p < 0` coincides
with that of `seekToPercent 0`, for every sign of the duration. -/
theorem clamp_percent_low (a b p : ℚ) (hp : p < 0) :
    max a (min b (a + (b - a) * p)) = max a (min b (a + (b - a) * 0)) := by
  rcases lt_trichotomy (b - a) 0 with h | h | h
  · have hba : b < a := by linarith
    rw [max_eq_left (le_trans (min_le_left _ _) (le_of_lt hba)),
      max_eq_left (le_trans (min_le_left _ _) (le_of_lt hba))]
  · have he : (b - a) * p = (b - a) * 0 := by rw [h]; ring
    rw [he]
  · have hab : a ≤ b := by linarith
    have e0 : a + (b - a) * 0 = a := by ring
    have hxa : a + (b - a) * p < a := by nlinarith
    rw [e0, min_eq_right hab, max_self,
      min_eq_right (le_trans (le_of_lt hxa) hab), max_eq_left (le_of_lt hxa)]

/-- C8: `seekToTime` is total and sets `currentTime` to the clamp of its
argument into `[startTime, endTime]` (the exact value for an in-range
argument); consequently `seekToPercent p` for `p > 1` produces exactly
the state of `seekToPercent 1`, and for `p < 0` exactly the state of
`seekToPercent 0`. -/
theorem seek_clamp_spec (d : RaceData) (s : EngState) (ts p : ℚ) :
    (seekToTime d ts s).currentTime = max d.startTime (min d.endTime ts) ∧
    (d.startTime ≤ d.endTime →
      d.startTime ≤ (seekToTime d ts s).currentTime ∧
      (seekToTime d ts s).currentTime ≤ d.endTime) ∧
    (d.startTime ≤ ts → ts ≤ d.endTime → (seekToTime d ts s).currentTime = ts) ∧
    (1 < p → seekToPercent d p s = seekToPercent d 1 s) ∧
    (p < 0 → seekToPercent d p s = seekToPercent d 0 s) := by
  refine ⟨rfl, fun hse => ⟨le_max_left _ _, max_le hse (min_le_left _ _)⟩,
    fun h1 h2 => ?_, fun hp => ?_, fun hp => ?_⟩
  · show max d.startTime (min d.endTime ts) = ts
    rw [min_eq_right h2, max_eq_right h1]
  · show seekToTime d (d.startTime + (d.endTime - d.startTime) * p) s =
      seekToTime d (d.startTime + (d.endTime - d.startTime) * 1) s
    unfold seekToTime
    rw [clamp_percent_high d.startTime d.endTime p hp]
  · show seekToTime d (d.startTime + (d.endTime - d.startTime) * p) s =
      seekToTime d (d.startTime + (d.endTime - d.startTime) * 0) s
    unfold seekToTime
    rw [clamp_percent_low d.startTime d.endTime p hp]

/-- Witness for C8: on the demo race, `seekToPercent 2` equals
`seekToPercent 1`, and an in-range seek lands exactly on its target. -/
theorem seek_clamp_spec_witness :
    (1 : ℚ) < 2 ∧
    seekToPercent demoData 2 (initState demoData) =
      seekToPercent demoData 1 (initState demoData) ∧
    demoData.startTime ≤ (50 : ℚ) ∧ (50 : ℚ) ≤ demoData.endTime ∧
    (seekToTime demoData 50 (initState demoData)).currentTime = 50 := by
  have h12 : (1 : ℚ) < 2 := by norm_num
  have hlo : demoData.startTime ≤ (50 : ℚ) := by norm_num [demoData]
  have hhi : (50 : ℚ) ≤ demoData.endTime := by norm_num [demoData]
  exact ⟨h12, (seek_clamp_spec demoData (initState demoData) 50 2).2.2.2.1 h12,
    hlo, hhi, (seek_clamp_spec demoData (initState demoData) 50 2).2.2.1 hlo hhi⟩

/-! ### C7: playback termination at `endTime` -/

theorem updateToCurrentTime_currentTime (s : EngState) :
    (updateToCurrentTime s).currentTime = s.currentTime := rfl

theorem updateToCurrentTime_isPlaying (s : EngState) :
    (updateToCurrentTime s).isPlaying = s.isPlaying := rfl

theorem updateToCurrentTime_playbackSpeed (s : EngState) :
    (updateToCurrentTime s).playbackSpeed = s.playbackSpeed := rfl

/-- C7: a tick of a playing engine whose advanced virtual time reaches or
exceeds `endTime` clamps `currentTime` to exactly `endTime`, pauses the
engine, performs the one final incremental update, fires a single
`onTimeChange` with `stillPlaying = false`, and schedules no further
tick. -/
theorem tick_end_spec (d : RaceData) (δ : ℚ) (s : EngState)
    (hp : s.isPlaying = true)
    (hend : d.endTime ≤ s.currentTime + δ / 1000 * s.playbackSpeed) :
    (tickResult d δ s).1 =
      updateToCurrentTime { s with currentTime := d.endTime, isPlaying := false } ∧
    (tickResult d δ s).1.currentTime = d.endTime ∧
    (tickResult d δ s).1.isPlaying = false ∧
    (tickResult d δ s).2.1 =
      [(d.endTime,
        getProgress d
          (updateToCurrentTime { s with currentTime := d.endTime, isPlaying := false }),
        false)] ∧
    (tickResult d δ s).2.2 = false := by
  simp only [tickResult, hp, if_true, if_pos hend]
  simp [updateToCurrentTime_currentTime, updateToCurrentTime_isPlaying]

/-- Witness for C7: a playing demo engine ticked 200 wall-clock seconds
at speed 1 crosses `endTime = 100` and terminates. -/
theorem tick_end_spec_witness :
    ({ initState demoData with isPlaying := true } : EngState).isPlaying = true ∧
    demoData.endTime ≤
      ({ initState demoData with isPlaying := true } : EngState).currentTime +
        200000 / 1000 * ({ initState demoData with isPlaying := true } : EngState).playbackSpeed ∧
    (tickResult demoData 200000 { initState demoData with isPlaying := true }).1.currentTime =
      demoData.endTime ∧
    (tickResult demoData 200000 { initState demoData with isPlaying := true }).1.isPlaying =
      false ∧
    (tickResult demoData 200000 { initState demoData with isPlaying := true }).2.2 = false := by
  have hp : ({ initState demoData with isPlaying := true } : EngState).isPlaying = true := rfl
  have hend : demoData.endTime ≤
      ({ initState demoData with isPlaying := true } : EngState).currentTime +
        200000 / 1000 * ({ initState demoData with isPlaying := true } : EngState).playbackSpeed := by
    norm_num [initState, demoData]
  have h := tick_end_spec demoData 200000 { initState demoData with isPlaying := true } hp hend
  exact ⟨hp, hend, h.2.1, h.2.2.1, h.2.2.2.2⟩

/-! ### C9: the clock invariant under the public control surface -/

/-- The clock invariant together with the speed sign carried through the
induction. -/
def ClockOK (d : RaceData) (s : EngState) : Prop :=
  d.startTime ≤ s.currentTime ∧ s.currentTime ≤ d.endTime ∧ 0 ≤ s.playbackSpeed

theorem tick_preserves_ClockOK (d : RaceData) (δ : ℚ) (s : EngState)
    (hδ : 0 ≤ δ) (h : ClockOK d s) : ClockOK d (tick d δ s) := by
  have hspd : 0 ≤ δ / 1000 * s.playbackSpeed :=
    mul_nonneg (div_nonneg hδ (by norm_num)) h.2.2
  by_cases hp : s.isPlaying = true
  · by_cases he : d.endTime ≤ s.currentTime + δ / 1000 * s.playbackSpeed
    · have ht : tick d δ s =
          updateToCurrentTime { s with currentTime := d.endTime, isPlaying := false } := by
        simp [tick, tickResult, hp, he]
      rw [ht]
      exact ⟨le_trans h.1 h.2.1, le_refl _, h.2.2⟩
    · have ht : tick d δ s =
          updateToCurrentTime
            { s with currentTime := s.currentTime + δ / 1000 * s.playbackSpeed } := by
        simp [tick, tickResult, hp, he]
      rw [ht]
      refine ⟨?_, ?_, h.2.2⟩
      · show d.startTime ≤ s.currentTime + δ / 1000 * s.playbackSpeed
        linarith [h.1]
      · show s.currentTime + δ / 1000 * s.playbackSpeed ≤ d.endTime
        exact le_of_lt (lt_of_not_le he)
  · have hps : s.isPlaying = false := by
      cases hb : s.isPlaying
      · rfl
      · exact absurd hb hp
    have ht : tick d δ s = s := by simp [tick, tickResult, hps]
    rw [ht]
    exact h

theorem seek_preserves_ClockOK (d : RaceData) (ts : ℚ) (s : EngState)
    (hse : d.startTime ≤ d.endTime) (h : 0 ≤ s.playbackSpeed) :
    ClockOK d (seekToTime d ts s) :=
  ⟨le_max_left _ _, max_le hse (min_le_left _ _), h⟩

theorem runOps_ClockOK (d : RaceData) (hse : d.startTime ≤ d.endTime) :
    ∀ ops : List EngOp, ∀ s : EngState, (∀ op ∈ ops, opOK op) → ClockOK d s →
      ClockOK d (runOps d ops s) := by
  intro ops
  induction ops with
  | nil => intro s _ h; exact h
  | cons op ops ih =>
    intro s hops h
    have hop : opOK op := hops op (List.mem_cons_self op ops)
    have hrest : ∀ o ∈ ops, opOK o := fun o ho => hops o (List.mem_cons_of_mem _ ho)
    have hstep : ClockOK d (runOp d s op) := by
      cases op with
      | play δ =>
        show ClockOK d (play d δ s)
        by_cases hp : s.isPlaying = true
        · simpa [play, hp] using h
        · have hps : s.isPlaying = false := by
            cases hb : s.isPlaying
            · rfl
            · exact absurd hb hp
          have hpl : play d δ s = tick d δ { s with isPlaying := true } := by
            simp [play, hps]
          rw [hpl]
          exact tick_preserves_ClockOK d δ _ hop ⟨h.1, h.2.1, h.2.2⟩
      | pause => exact h
      | toggle δ =>
        show ClockOK d (toggle d δ s)
        by_cases hp : s.isPlaying = true
        · simpa [toggle, pause, hp] using h
        · have hps : s.isPlaying = false := by
            cases hb : s.isPlaying
            · rfl
            · exact absurd hb hp
          have htg : toggle d δ s = tick d δ { s with isPlaying := true } := by
            simp [toggle, play, hps]
          rw [htg]
          exact tick_preserves_ClockOK d δ _ hop ⟨h.1, h.2.1, h.2.2⟩
      | setSpeed v => exact ⟨h.1, h.2.1, hop⟩
      | seekToTime ts => exact seek_preserves_ClockOK d ts s hse h.2.2
      | seekToPercent p => exact seek_preserves_ClockOK d _ s hse h.2.2
      | tick δ => exact tick_preserves_ClockOK d δ s hop h
    have hfold : runOps d (op :: ops) s = runOps d ops (runOp d s op) := rfl
    rw [hfold]
    exact ih (runOp d s op) hrest hstep

/-- C9 counterexample: `setSpeed(-1)` followed by a one-second tick drives
`currentTime` to `-1`, strictly below `startTime = 0`: `_tick` has no
lower clamp, so a negative speed multiplier breaks the clock invariant. -/
theorem clock_invariant_cex :
    (runOps demoData [EngOp.play 0, EngOp.setSpeed (-1), EngOp.tick 1000]
        (initState demoData)).currentTime = -1 ∧
    ¬ demoData.startTime ≤
        (runOps demoData [EngOp.play 0, EngOp.setSpeed (-1), EngOp.tick 1000]
          (initState demoData)).currentTime := by
  have h : (runOps demoData [EngOp.play 0, EngOp.setSpeed (-1), EngOp.tick 1000]
      (initState demoData)).currentTime = -1 := by
    norm_num [runOps, runOp, play, tick, tickResult, setSpeed, initState, demoData,
      updateToCurrentTime, runFrames, runEvents, eventsOf, generateEventsFromScoring,
      sortEventsByTime, getProgress]
  refine ⟨h, ?_⟩
  rw [h]
  norm_num [demoData]

/-- C9 (amended): after load, for every sequence of public operations in
which every tick's wall-clock delta and every `setSpeed` multiplier is
nonnegative, the clock invariant `startTime ≤ currentTime ≤ endTime`
holds; out-of-range seeks are clamped, never rejected. -/
theorem clock_invariant (d : RaceData) (hse : d.startTime ≤ d.endTime)
    (ops : List EngOp) (hops : ∀ op ∈ ops, opOK op) :
    d.startTime ≤ (runOps d ops (initState d)).currentTime ∧
    (runOps d ops (initState d)).currentTime ≤ d.endTime := by
  have h := runOps_ClockOK d hse ops (initState d) hops ⟨le_refl _, hse, by norm_num [initState]⟩
  exact ⟨h.1, h.2.1⟩

/-- Witness for C9: a mixed sequence of operations with nonnegative deltas
and speeds keeps the demo clock inside `[0, 100]`. -/
theorem clock_invariant_witness :
    demoData.startTime ≤ demoData.endTime ∧
    (∀ op ∈ [EngOp.play 0, EngOp.setSpeed 2, EngOp.tick 1000,
        EngOp.seekToPercent (3 / 2), EngOp.pause], opOK op) ∧
    demoData.startTime ≤
      (runOps demoData [EngOp.play 0, EngOp.setSpeed 2, EngOp.tick 1000,
        EngOp.seekToPercent (3 / 2), EngOp.pause] (initState demoData)).currentTime ∧
    (runOps demoData [EngOp.play 0, EngOp.setSpeed 2, EngOp.tick 1000,
        EngOp.seekToPercent (3 / 2), EngOp.pause] (initState demoData)).currentTime ≤
      demoData.endTime := by
  have hse : demoData.startTime ≤ demoData.endTime := by norm_num [demoData]
  have hops : ∀ op ∈ [EngOp.play 0, EngOp.setSpeed 2, EngOp.tick 1000,
      EngOp.seekToPercent (3 / 2), EngOp.pause], opOK op := by
    intro op hop
    fin_cases hop <;> norm_num [opOK]
  have h := clock_invariant demoData hse _ hops
  exact ⟨hse, hops, h.1, h.2⟩

/-! ### C1: seeking is equivalent to replaying forward from the start

The crossing loops are monotone accumulators: processing up to `T1` and
then continuing up to `T2 ≥ T1` is the same as processing up to `T2`
from scratch. A tick of a freshly-loaded playing engine therefore lands
on exactly the state the full rebuild computes, and every further tick
preserves that shape. -/

theorem runFrames_comp (T1 T2 : ℚ) (h12 : T1 ≤ T2) :
    ∀ (l : List Frame) (m : PosMap),
      runFrames (runFrames l T1 m).2 T2 (runFrames l T1 m).1 = runFrames l T2 m := by
  intro l
  induction l with
  | nil => intro m; rfl
  | cons f rest ih =>
    intro m
    by_cases h1 : f.t ≤ T1
    · have h2 : f.t ≤ T2 := le_trans h1 h12
      simp only [runFrames, if_pos h1, if_pos h2]
      exact ih (applyFrame m f)
    · simp only [runFrames, if_neg h1]

theorem runEvents_comp (T1 T2 : ℚ) (h12 : T1 ≤ T2) :
    ∀ (l : List TimelineEvent) (st : ScoringStateMap),
      runEvents (runEvents l T1 st).2 T2 (runEvents l T1 st).1 = runEvents l T2 st := by
  intro l
  induction l with
  | nil => intro st; rfl
  | cons e rest ih =>
    intro st
    by_cases h1 : e.t ≤ T1
    · have h2 : e.t ≤ T2 := le_trans h1 h12
      simp only [runEvents, if_pos h1, if_pos h2]
      exact ih (processEvent st e)
    · simp only [runEvents, if_neg h1]

/-- The playing engine state whose cursors and accumulators have been
advanced from scratch to virtual time `T` at speed 1. -/
def reachedAt (d : RaceData) (T : ℚ) : EngState where
  posRem := (runFrames d.positions T (fun _ => none)).2
  evRem := (runEvents (eventsOf d) T (resetScoringState d.runners)).2
  runnerPositions := (runFrames d.positions T (fun _ => none)).1
  scoringState := (runEvents (eventsOf d) T (resetScoringState d.runners)).1
  currentTime := T
  isPlaying := true
  playbackSpeed := 1

theorem tick_paused (d : RaceData) (δ : ℚ) (s : EngState) (h : s.isPlaying = false) :
    tick d δ s = s := by
  simp [tick, tickResult, h]

theorem ticksFrom_paused (d : RaceData) (ds : List ℚ) (s : EngState)
    (h : s.isPlaying = false) : ticksFrom d ds s = s := by
  induction ds with
  | nil => rfl
  | cons δ rest ih =>
    have hfold : ticksFrom d (δ :: rest) s = ticksFrom d rest (tick d δ s) := rfl
    rw [hfold, tick_paused d δ s h, ih]

theorem tick_reachedAt_lt (d : RaceData) (δ T : ℚ) (hδ : 0 ≤ δ)
    (hlt : ¬ d.endTime ≤ T + δ / 1000) :
    tick d δ (reachedAt d T) = reachedAt d (T + δ / 1000) := by
  have hT : T ≤ T + δ / 1000 := by
    have : (0 : ℚ) ≤ δ / 1000 := by positivity
    linarith
  have ht : tick d δ (reachedAt d T) =
      updateToCurrentTime { reachedAt d T with currentTime := T + δ / 1000 } := by
    simp [tick, tickResult, reachedAt, hlt]
  rw [ht]
  ext1
  · show (runFrames (runFrames d.positions T (fun _ => none)).2 (T + δ / 1000)
      (runFrames d.positions T (fun _ => none)).1).2 = _
    rw [runFrames_comp T (T + δ / 1000) hT]; rfl
  · show (runEvents (runEvents (eventsOf d) T (resetScoringState d.runners)).2
      (T + δ / 1000) (runEvents (eventsOf d) T (resetScoringState d.runners)).1).2 = _
    rw [runEvents_comp T (T + δ / 1000) hT]; rfl
  · show (runFrames (runFrames d.positions T (fun _ => none)).2 (T + δ / 1000)
      (runFrames d.positions T (fun _ => none)).1).1 = _
    rw [runFrames_comp T (T + δ / 1000) hT]; rfl
  · show (runEvents (runEvents (eventsOf d) T (resetScoringState d.runners)).2
      (T + δ / 1000) (runEvents (eventsOf d) T (resetScoringState d.runners)).1).1 = _
    rw [runEvents_comp T (T + δ / 1000) hT]; rfl
  · rfl
  · rfl
  · rfl

theorem tick_reachedAt_end (d : RaceData) (δ T : ℚ) (hT : T ≤ d.endTime)
    (hge : d.endTime ≤ T + δ / 1000) :
    tick d δ (reachedAt d T) = { reachedAt d d.endTime with isPlaying := false } := by
  have ht : tick d δ (reachedAt d T) =
      updateToCurrentTime
        { reachedAt d T with currentTime := d.endTime, isPlaying := false } := by
    simp [tick, tickResult, reachedAt, hge]
  rw [ht]
  ext1
  · show (runFrames (runFrames d.positions T (fun _ => none)).2 d.endTime
      (runFrames d.positions T (fun _ => none)).1).2 = _
    rw [runFrames_comp T d.endTime hT]; rfl
  · show (runEvents (runEvents (eventsOf d) T (resetScoringState d.runners)).2
      d.endTime (runEvents (eventsOf d) T (resetScoringState d.runners)).1).2 = _
    rw [runEvents_comp T d.endTime hT]; rfl
  · show (runFrames (runFrames d.positions T (fun _ => none)).2 d.endTime
      (runFrames d.positions T (fun _ => none)).1).1 = _
    rw [runFrames_comp T d.endTime hT]; rfl
  · show (runEvents (runEvents (eventsOf d) T (resetScoringState d.runners)).2
      d.endTime (runEvents (eventsOf d) T (resetScoringState d.runners)).1).1 = _
    rw [runEvents_comp T d.endTime hT]; rfl
  · rfl
  · rfl
  · rfl

theorem tick_initPlaying_lt (d : RaceData) (δ : ℚ)
    (hlt : ¬ d.endTime ≤ d.startTime + δ / 1000) :
    tick d δ { initState d with isPlaying := true } =
      reachedAt d (d.startTime + δ / 1000) := by
  simp [tick, tickResult, initState, hlt, updateToCurrentTime, reachedAt]

theorem tick_initPlaying_end (d : RaceData) (δ : ℚ)
    (hge : d.endTime ≤ d.startTime + δ / 1000) :
    tick d δ { initState d with isPlaying := true } =
      { reachedAt d d.endTime with isPlaying := false } := by
  simp [tick, tickResult, initState, hge, updateToCurrentTime, reachedAt]

/-- The virtual-time total of a sequence of wall-clock millisecond deltas
ticked at speed 1. -/
def virtualSum (ds : List ℚ) : ℚ :=
  (ds.map fun x => x / 1000).sum

theorem virtualSum_cons (δ : ℚ) (ds : List ℚ) :
    virtualSum (δ :: ds) = δ / 1000 + virtualSum ds := by
  simp [virtualSum]

theorem virtualSum_nonneg (ds : List ℚ) (h : ∀ x ∈ ds, 0 ≤ x) : 0 ≤ virtualSum ds := by
  apply List.sum_nonneg
  intro x hx
  obtain ⟨y, hy, rfl⟩ := List.mem_map.mp hx
  exact div_nonneg (h y hy) (by norm_num)

theorem ticksFrom_reachedAt (d : RaceData) :
    ∀ ds : List ℚ, ∀ T : ℚ, (∀ x ∈ ds, 0 ≤ x) → T + virtualSum ds ≤ d.endTime →
      snapshot d (ticksFrom d ds (reachedAt d T)) =
        snapshot d (reachedAt d (T + virtualSum ds)) := by
  intro ds
  induction ds with
  | nil =>
    intro T _ _
    show snapshot d (reachedAt d T) = snapshot d (reachedAt d (T + virtualSum []))
    norm_num [virtualSum]
  | cons δ rest ih =>
    intro T hpos hbound
    have hδ : 0 ≤ δ := hpos δ (List.mem_cons_self δ rest)
    have hrestpos : ∀ x ∈ rest, 0 ≤ x := fun x hx => hpos x (List.mem_cons_of_mem _ hx)
    have hvr : 0 ≤ virtualSum rest := virtualSum_nonneg rest hrestpos
    have hb' : T + δ / 1000 + virtualSum rest ≤ d.endTime := by
      have := hbound
      rw [virtualSum_cons] at this
      linarith
    have hfold : ticksFrom d (δ :: rest) (reachedAt d T) =
        ticksFrom d rest (tick d δ (reachedAt d T)) := rfl
    by_cases he : d.endTime ≤ T + δ / 1000
    · have h1 : T + δ / 1000 ≤ d.endTime := by linarith
      have heq : T + δ / 1000 = d.endTime := le_antisymm h1 he
      have hT : T ≤ d.endTime := by
        have h0 : 0 ≤ δ / 1000 := by positivity
        linarith
      have hr0 : virtualSum rest = 0 := by linarith
      have hsum : T + virtualSum (δ :: rest) = d.endTime := by
        rw [virtualSum_cons, hr0]
        linarith
      rw [hfold, tick_reachedAt_end d δ T hT he, ticksFrom_paused d rest _ rfl, hsum]
      rfl
    · rw [hfold, tick_reachedAt_lt d δ T hδ he]
      have h2 : T + δ / 1000 + virtualSum rest ≤ d.endTime := by linarith
      rw [ih (T + δ / 1000) hrestpos h2]
      have harith : T + δ / 1000 + virtualSum rest = T + virtualSum (δ :: rest) := by
        rw [virtualSum_cons]; ring
      rw [harith]

/-- C1: for every valid target time `t` and every sequence of at least one
forward tick from a freshly-loaded playing engine whose accumulated
virtual time reaches exactly `t`, `seekToTime t` from any prior engine
state produces the same `(runnerPositions, currentIndex,
currentEventIndex, scoringState)` snapshot as the tick sequence; in
particular the post-seek snapshot is a pure function of `t` alone, so
seeking after any earlier seek equals seeking directly on a fresh
engine. -/
theorem seek_tick_equiv (d : RaceData) (t : ℚ)
    (ht1 : d.startTime ≤ t) (ht2 : t ≤ d.endTime)
    (ds : List ℚ) (hne : ds ≠ []) (hpos : ∀ x ∈ ds, 0 ≤ x)
    (hsum : d.startTime + virtualSum ds = t)
    (s₁ s₂ : EngState) :
    snapshot d (seekToTime d t s₁) =
      snapshot d (ticksFrom d ds { initState d with isPlaying := true }) ∧
    snapshot d (seekToTime d t s₁) = snapshot d (seekToTime d t s₂) := by
  have hclamp : max d.startTime (min d.endTime t) = t := by
    rw [min_eq_right ht2, max_eq_right ht1]
  have hseek : ∀ s : EngState, snapshot d (seekToTime d t s) = snapshot d (reachedAt d t) := by
    intro s
    show snapshot d (rebuildStateAtTime d (max d.startTime (min d.endTime t))
      { s with currentTime := max d.startTime (min d.endTime t) }) = _
    rw [hclamp]
    rfl
  obtain ⟨δ, rest, rfl⟩ : ∃ δ rest, ds = δ :: rest := by
    cases ds with
    | nil => exact absurd rfl hne
    | cons δ rest => exact ⟨δ, rest, rfl⟩
  have hδ : 0 ≤ δ := hpos δ (List.mem_cons_self δ rest)
  have hrestpos : ∀ x ∈ rest, 0 ≤ x := fun x hx => hpos x (List.mem_cons_of_mem _ hx)
  have hvr : 0 ≤ virtualSum rest := virtualSum_nonneg rest hrestpos
  have hsum' : d.startTime + δ / 1000 + virtualSum rest = t := by
    rw [← hsum, virtualSum_cons]; ring
  have hfold : ticksFrom d (δ :: rest) { initState d with isPlaying := true } =
      ticksFrom d rest (tick d δ { initState d with isPlaying := true }) := rfl
  refine ⟨?_, by rw [hseek s₁, hseek s₂]⟩
  rw [hseek s₁, hfold]
  by_cases he : d.endTime ≤ d.startTime + δ / 1000
  · have h1 : d.startTime + δ / 1000 ≤ d.endTime := by linarith
    have hr0 : virtualSum rest = 0 := by linarith
    have htend : t = d.endTime := by linarith
    rw [tick_initPlaying_end d δ he, ticksFrom_paused d rest _ rfl, htend]
    rfl
  · rw [tick_initPlaying_lt d δ he]
    have h2 : d.startTime + δ / 1000 + virtualSum rest ≤ d.endTime := by linarith
    rw [ticksFrom_reachedAt d rest (d.startTime + δ / 1000) hrestpos h2]
    have harith : d.startTime + δ / 1000 + virtualSum rest = t := by linarith
    rw [harith]

/-- Witness for C1: on the demo race, seeking to `t = 50` from a fresh
engine or from an engine already sought to `70` matches a single
50-second tick from the start. -/
theorem seek_tick_equiv_witness :
    demoData.startTime ≤ (50 : ℚ) ∧ (50 : ℚ) ≤ demoData.endTime ∧
    ([(50000 : ℚ)] ≠ ([] : List ℚ)) ∧ (∀ x ∈ [(50000 : ℚ)], 0 ≤ x) ∧
    demoData.startTime + virtualSum [(50000 : ℚ)] = 50 ∧
    (snapshot demoData (seekToTime demoData 50 (initState demoData)) =
        snapshot demoData
          (ticksFrom demoData [(50000 : ℚ)] { initState demoData with isPlaying := true }) ∧
      snapshot demoData (seekToTime demoData 50 (initState demoData)) =
        snapshot demoData
          (seekToTime demoData 50 (seekToTime demoData 70 (initState demoData)))) := by
  have h1 : demoData.startTime ≤ (50 : ℚ) := by norm_num [demoData]
  have h2 : (50 : ℚ) ≤ demoData.endTime := by norm_num [demoData]
  have h3 : ([(50000 : ℚ)] ≠ ([] : List ℚ)) := by simp
  have h4 : ∀ x ∈ [(50000 : ℚ)], 0 ≤ x := by
    intro x hx
    rw [List.mem_singleton] at hx
    subst hx
    norm_num
  have h5 : demoData.startTime + virtualSum [(50000 : ℚ)] = 50 := by
    norm_num [demoData, virtualSum]
  exact ⟨h1, h2, h3, h4, h5,
    seek_tick_equiv demoData 50 h1 h2 [(50000 : ℚ)] h3 h4 h5 (initState demoData)
      (seekToTime demoData 70 (initState demoData))⟩

end Replay
